import Mathlib

/-!
Shallow embedding of the rdenticon identicon renderer (src/lib.rs, src/hsl.rs,
src/config.rs) and verification of its specification.

Modelling conventions:
* `u32`/`u8` values are `Nat`.  Subtraction, the only machine operation whose
  wrap-around is reachable in this code, is modelled by the wrapping `wsub`
  (explicit `% 2^32`).  Additions, multiplications and divisions performed by
  the renderer stay far below `2^32` whenever their inputs are in `u32` range,
  and are modelled by exact `Nat` operations; theorems that depend on machine
  range carry the corresponding bounds as hypotheses.
* `f64` values are modelled by `ℚ`.  Every floating-point expression that a
  theorem below evaluates exactly (hue `360·v/(2^28-1)` at `v = 0` and at the
  maximal `v`, branch values of the lightness correction at `l = 1/2`,
  `round(0.5·size)` style paddings on the concrete inputs used) is exactly
  representable in `f64`, so the rational model agrees with the compiled code
  at those points; inequality facts proven about the derived geometry have
  enough slack to absorb any `f64` rounding of the shape coefficients.
* Fallible operations (slice indexing that can panic) return `Option`;
  `none` models a panic.
* The raster backend (the external `ril` crate) is out of scope for the
  specification; an image is modelled as its size, background color and the
  ordered list of drawing commands, with the device coordinates the renderer
  hands to the backend.  The pixel buffer is a function of this value.
-/

namespace Rdenticon

/-- Modulus of `u32` arithmetic. -/
def u32Mod : Nat := 4294967296

/-- Wrapping `u32` subtraction (release-profile semantics of `a - b`). -/
def wsub (a b : Nat) : Nat := (a + u32Mod - b) % u32Mod

theorem wsub_eq (a b : Nat) (hba : b ≤ a) (ha : a < u32Mod) : wsub a b = a - b := by
  unfold wsub u32Mod at *
  omega

/-! ## src/hsl.rs -/

/-- `f64::rem_euclid` on the rational model. -/
def remEuclid (a b : ℚ) : ℚ := a - b * ⌊a / b⌋

/-- An 8-bit RGB color. -/
structure Rgb where
  r : Nat
  g : Nat
  b : Nat
deriving DecidableEq, Repr

/-- An 8-bit RGBA color. -/
structure Rgba where
  r : Nat
  g : Nat
  b : Nat
  a : Nat
deriving DecidableEq, Repr

/-- `(x).round() as u8`: round half away from zero (all values rounded by the
renderer are nonnegative, where this agrees with `round` on `ℚ`), then a
saturating cast to `u8`. -/
def roundU8 (q : ℚ) : Nat := min 255 (round q).toNat

/-- `hsl_to_raw_rgbf` from src/hsl.rs. -/
def hsl_to_raw_rgbf (h s l : ℚ) : ℚ × ℚ × ℚ :=
  if s = 0 then (l, l, l)
  else
    let c := (1 - |2 * l - 1|) * s
    let x := c * (1 - |remEuclid (h / 60) 2 - 1|)
    let sector := (⌊remEuclid h 360⌋).toNat
    let rgb :=
      if sector ≤ 59 then (c, x, (0 : ℚ))
      else if sector ≤ 119 then (x, c, 0)
      else if sector ≤ 179 then (0, c, x)
      else if sector ≤ 239 then (0, x, c)
      else if sector ≤ 299 then (x, 0, c)
      else (c, 0, x)
    let m := l - c / 2
    (rgb.1 + m, rgb.2.1 + m, rgb.2.2 + m)

/-- `hsl_to_rgb` from src/hsl.rs. -/
def hsl_to_rgb (h s l : ℚ) : Rgb :=
  let rgb := hsl_to_raw_rgbf h s l
  ⟨roundU8 (rgb.1 * 255), roundU8 (rgb.2.1 * 255), roundU8 (rgb.2.2 * 255)⟩

/-- The perceived-middle-lightness table of src/hsl.rs. -/
def HSL_CORRECTORS : List ℚ := [0.55, 0.5, 0.5, 0.46, 0.6, 0.55]

/-- Corrector selected by the hue's 60-degree sixth:
`HSL_CORRECTORS[(h / 60.0) as usize % 6]`. -/
def correctorOf (h : ℚ) : ℚ := HSL_CORRECTORS.getD ((⌊h / 60⌋).toNat % 6) 0

/-- The corrected lightness computed by `corrected_hsl_to_rgb`. -/
def correctedLightness (h l : ℚ) : ℚ :=
  let corrector := correctorOf h
  if l < 0.5 then l * corrector * 2 else (l - 0.5) * (1 - corrector) * 2 + corrector

/-- `corrected_hsl_to_rgb` from src/hsl.rs. -/
def corrected_hsl_to_rgb (h s l : ℚ) : Rgb :=
  hsl_to_rgb h s (correctedLightness h l)

/-! ## src/config.rs -/

def Rgba.white : Rgba := ⟨255, 255, 255, 255⟩

/-- The configuration record of src/config.rs (inclusive ranges as pairs). -/
structure Config where
  hues : List ℚ
  color_lightness : ℚ × ℚ
  grayscale_lightness : ℚ × ℚ
  color_saturation : ℚ
  grayscale_saturation : ℚ
  background_color : Rgba
  padding : ℚ
  size : Nat
deriving DecidableEq, Repr

/-- `Config::default()`. -/
def Config.default : Config :=
  { hues := []
    color_lightness := (0.4, 0.8)
    grayscale_lightness := (0.3, 0.9)
    color_saturation := 0.5
    grayscale_saturation := 0.0
    background_color := Rgba.white
    padding := 0.08
    size := 256 }

/-- The constraints checked by `ConfigBuilder::build`. -/
def configValid (c : Config) : Prop :=
  (∀ q ∈ c.hues, 0 ≤ q ∧ q < 360) ∧
  0 ≤ c.color_lightness.1 ∧ c.color_lightness.2 ≤ 1 ∧
  0 ≤ c.grayscale_lightness.1 ∧ c.grayscale_lightness.2 ≤ 1 ∧
  0 ≤ c.color_saturation ∧ c.color_saturation ≤ 1 ∧
  0 ≤ c.grayscale_saturation ∧ c.grayscale_saturation ≤ 1 ∧
  0 ≤ c.padding ∧ c.padding ≤ 0.5

instance (c : Config) : Decidable (configValid c) := by
  unfold configValid; infer_instance

/-- `Config::resolve_hue`.  The source indexes
`self.hues[(hue / 360.0 * self.hues.len() as f64) as usize]`; an out-of-bounds
index panics, modelled by `none`. -/
def resolve_hue (c : Config) (hue : ℚ) : Option ℚ :=
  if c.hues.isEmpty then some hue
  else c.hues.get? (⌊hue / 360 * (c.hues.length : ℚ)⌋).toNat

/-- `Config::resolve_color_lightness`: `(end - start).mul_add(lightness, start)`. -/
def resolve_color_lightness (c : Config) (lightness : ℚ) : ℚ :=
  (c.color_lightness.2 - c.color_lightness.1) * lightness + c.color_lightness.1

/-- `Config::resolve_grayscale_lightness`. -/
def resolve_grayscale_lightness (c : Config) (lightness : ℚ) : ℚ :=
  (c.grayscale_lightness.2 - c.grayscale_lightness.1) * lightness + c.grayscale_lightness.1

/-- The five palette colors of src/lib.rs. -/
structure ColorCandidates where
  light_gray : Rgba
  dark_gray : Rgba
  light_color : Rgba
  mid_color : Rgba
  dark_color : Rgba
deriving DecidableEq, Repr

def Rgb.into_rgba (c : Rgb) : Rgba := ⟨c.r, c.g, c.b, 255⟩

/-- `ColorCandidates::get_from_rotation_index`. -/
def ColorCandidates.get_from_rotation_index (cc : ColorCandidates) (index : Nat) : Rgba :=
  match index with
  | 0 => cc.dark_gray
  | 1 => cc.mid_color
  | 2 => cc.light_gray
  | 3 => cc.light_color
  | _ => cc.dark_color

/-- `Config::color_candidates`; `none` models the panic of `resolve_hue`. -/
def color_candidates (c : Config) (hue : ℚ) : Option ColorCandidates :=
  (resolve_hue c hue).map fun hue =>
    { light_gray := (corrected_hsl_to_rgb hue c.grayscale_saturation
        (resolve_grayscale_lightness c 1)).into_rgba
      dark_gray := (corrected_hsl_to_rgb hue c.grayscale_saturation
        (resolve_grayscale_lightness c 0)).into_rgba
      light_color := (corrected_hsl_to_rgb hue c.color_saturation
        (resolve_color_lightness c 1)).into_rgba
      mid_color := (corrected_hsl_to_rgb hue c.color_saturation
        (resolve_color_lightness c 0.5)).into_rgba
      dark_color := (corrected_hsl_to_rgb hue c.color_saturation
        (resolve_color_lightness c 0)).into_rgba }

/-! ## src/lib.rs: cell transform and drawing primitives -/

/-- The per-cell affine transform of src/lib.rs (fields in source order). -/
structure Transform where
  x : Nat
  y : Nat
  rotation : Nat
  right : Nat
  bottom : Nat
deriving DecidableEq, Repr

/-- `Transform::new`. -/
def Transform.new (x y size rotation : Nat) : Transform :=
  ⟨x, y, rotation, x + size, y + size⟩

/-- `Transform::transform`: maps a shape-local point with its local bounding
box to device coordinates.  The wildcard arm of the source `match` is the
rotation-3 case. -/
def Transform.transform (t : Transform) (p : Nat × Nat) (box : Nat × Nat) : Nat × Nat :=
  match t.rotation with
  | 0 => (t.x + p.1, t.y + p.2)
  | 1 => (wsub (wsub t.right p.2) box.2, t.y + p.1)
  | 2 => (wsub (wsub t.right p.1) box.1, wsub (wsub t.bottom p.2) box.2)
  | _ => (t.x + p.2, wsub (wsub t.bottom p.1) box.1)

/-- A drawing command handed to the raster backend, with the device
coordinates the renderer computed. -/
inductive DrawCmd where
  | polygon (color : Rgba) (points : List (Nat × Nat))
  | ellipse (color : Rgba) (x1 y1 x2 y2 : Nat)
  | rect (color : Rgba) (x y w h : Nat)
deriving DecidableEq, Repr

/-- `ShapeRenderer::polygon`: every vertex is transformed with local bounding
box `(0, 0)`. -/
def polygonCmd (t : Transform) (color : Rgba) (points : List (Nat × Nat)) : List DrawCmd :=
  [DrawCmd.polygon color (points.map fun p => t.transform p (0, 0))]

/-- `ShapeRenderer::circle`: `Ellipse::from_bounding_box(x, y, x + d, y + d)`. -/
def circleCmd (t : Transform) (color : Rgba) (top_left : Nat × Nat) (diameter : Nat) :
    List DrawCmd :=
  let p := t.transform top_left (diameter, diameter)
  [DrawCmd.ellipse color p.1 p.2 (p.1 + diameter) (p.2 + diameter)]

/-- The corner-dropping vertex selection of `ShapeRenderer::triangle`.
The `_` arm models the `unreachable_unchecked` branch of the source. -/
def trianglePoints (rotation : Nat) (tl sz : Nat × Nat) : Option (List (Nat × Nat)) :=
  let a := (tl.1 + sz.1, tl.2)
  let b := (tl.1 + sz.1, tl.2 + sz.2)
  let c := (tl.1, tl.2 + sz.2)
  let d := (tl.1, tl.2)
  match rotation % 4 with
  | 0 => some [b, c, d]
  | 1 => some [a, c, d]
  | 2 => some [a, b, d]
  | 3 => some [a, b, c]
  | _ + 4 => none

/-- `ShapeRenderer::triangle`. -/
def triangleCmd (rotation : Nat) (t : Transform) (color : Rgba) (tl sz : Nat × Nat) :
    Option (List DrawCmd) :=
  (trianglePoints rotation tl sz).map (polygonCmd t color)

/-- `ShapeRenderer::rectangle`: width/height swapped for odd rotations, and
the height drawn one pixel taller than requested. -/
def rectangleCmd (t : Transform) (color : Rgba) (top_left sz : Nat × Nat) : List DrawCmd :=
  let p := t.transform top_left sz
  let sz := if t.rotation % 2 == 1 then (sz.2, sz.1) else sz
  [DrawCmd.rect color p.1 p.2 sz.1 (sz.2 + 1)]

/-- `ShapeRenderer::rhombus`. -/
def rhombusCmd (t : Transform) (color : Rgba) (top_left sz : Nat × Nat) : List DrawCmd :=
  polygonCmd t color
    [(top_left.1 + sz.1 / 2, top_left.2),
     (top_left.1 + sz.1, top_left.2 + sz.2 / 2),
     (top_left.1 + sz.1 / 2, top_left.2 + sz.2),
     (top_left.1, top_left.2 + sz.2 / 2)]

/-! ## src/lib.rs: hash decoding -/

/-- `into_nibbles`: high nibble then low nibble of each byte, in byte order. -/
def into_nibbles (hash : List Nat) : List Nat :=
  hash.foldr (fun b acc => b / 16 :: b % 16 :: acc) []

/-- Read the nibble array at a fixed index (always in bounds in the source). -/
def nibAt (nib : List Nat) (i : Nat) : Nat := nib.getD i 0

/-- `pad_zeroes::<FROM, TO>`: left-pad with zeroes to the requested length. -/
def pad_zeroes (TO : Nat) (arr : List Nat) : List Nat :=
  List.replicate (TO - arr.length) 0 ++ arr

/-- `hash_substring_u32::<LEN>`: take `LEN` nibbles starting at `start`,
left-pad to 8 nibbles, join nibble pairs back into bytes and read the result
as a big-endian `u32`. -/
def hash_substring_u32 (LEN : Nat) (nib : List Nat) (start : Nat) : Nat :=
  let ns := pad_zeroes 8 ((nib.drop start).take LEN)
  let bytes := (List.range 4).map fun i => nibAt ns (i * 2) * 16 + nibAt ns (i * 2 + 1)
  bytes.foldl (fun acc b => acc * 256 + b) 0

/-- The hue derived by `render_identicon`:
`360.0 * hash_substring_u32::<7>(&hash, 33) as f64 / 0xfffffff as f64`. -/
def hueOf (hash : List Nat) : ℚ :=
  360 * (hash_substring_u32 7 (into_nibbles hash) 33 : ℚ) / (268435455 : ℚ)

/-! ## src/lib.rs: shape library -/

/-- The per-cell transform constructed by `render_shape`:
`Transform::new(offset + x * cell, offset + y * cell, cell, rotation % 4)`. -/
def cellTransform (offset cell : Nat) (pos : Nat × Nat) (rotation : Nat) : Transform :=
  Transform.new (offset + pos.1 * cell) (offset + pos.2 * cell) cell (rotation % 4)

/-- The type of a shape-drawing callback: transform, color, background color,
cell size, shape selector, position index. -/
abbrev RenderFn := Transform → Rgba → Rgba → Nat → Nat → Nat → Option (List DrawCmd)

/-- `render_outer`: the 4 side/corner shape variants, selected by
`shape_index % 4`.  `(cell as f64 * c) as u32` casts are exact here. -/
def render_outer : RenderFn := fun t color _bg cell shape _i =>
  match shape % 4 with
  | 0 => triangleCmd 0 t color (0, 0) (cell, cell)
  | 1 => triangleCmd 0 t color (0, cell / 2) (cell, cell / 2)
  | 2 => some (rhombusCmd t color (0, 0) (cell, cell))
  | _ =>
    let m := cell / 6
    some (circleCmd t color (m, m) (wsub cell (2 * m)))

/-- `render_center`: the 14 center shape variants, selected by
`shape_index % 14`; variant 13 draws only at position index 0.
`(cell as f64 * c) as u32` casts are modelled by exact rational floors
(`c * k / 100` in `Nat`). -/
def render_center : RenderFn := fun t color bg cell shape i =>
  match shape % 14 with
  | 0 =>
    let k := 42 * cell / 100
    some (polygonCmd t color
      [(0, 0), (cell, 0), (cell, wsub cell (k * 2)), (wsub cell k, cell), (0, cell)])
  | 1 =>
    let w := cell / 2
    let h := 80 * cell / 100
    triangleCmd 2 t color (wsub cell w, 0) (w, h)
  | 2 =>
    let w := cell / 3
    let dw := wsub cell w
    some (rectangleCmd t color (w, w) (dw, dw))
  | 3 =>
    let outer := if cell < 6 then 1 else if cell < 8 then 2 else cell / 4
    let inner := if 10 < cell then cell / 10 else 1
    let p := wsub (wsub cell inner) outer
    some (rectangleCmd t color (outer, outer) (p, p))
  | 4 =>
    let m := 15 * cell / 100
    let w := cell / 2
    let p := wsub (wsub cell w) m
    some (circleCmd t color (p, p) w)
  | 5 =>
    let inner := cell / 10
    let outer := 40 * cell / 100
    some (rectangleCmd t color (0, 0) (cell, cell) ++
      polygonCmd t bg
        [(outer, outer), (wsub cell inner, outer),
         (outer + wsub (wsub cell outer) inner / 2, wsub cell inner)])
  | 6 =>
    let tenth := cell / 10
    let four_tenths := tenth * 4
    let seven_tenths := tenth * 7
    some (polygonCmd t color
      [(0, 0), (cell, 0), (cell, seven_tenths), (four_tenths, four_tenths),
       (seven_tenths, cell), (0, cell)])
  | 7 =>
    let half_cell := cell / 2
    let diff := wsub cell half_cell
    triangleCmd 3 t color (half_cell, half_cell) (diff, diff)
  | 8 =>
    let half_cell := cell / 2
    let diff := wsub cell half_cell
    (triangleCmd 1 t color (half_cell, half_cell) (diff, diff)).map fun tri =>
      rectangleCmd t color (0, 0) (cell, diff) ++
      rectangleCmd t color (0, half_cell) (diff, diff) ++ tri
  | 9 =>
    let inner := 14 * cell / 100
    let outer := if cell < 4 then 1 else if cell < 6 then 2 else 35 * cell / 100
    let p := wsub (wsub cell outer) inner
    some (rectangleCmd t color (0, 0) (cell, cell) ++ rectangleCmd t bg (outer, outer) (p, p))
  | 10 =>
    let outer := 36 * cell / 100
    let inner := 12 * cell / 100
    some (rectangleCmd t color (0, 0) (cell, cell) ++
      circleCmd t bg (outer, outer) (wsub (wsub cell inner) outer))
  | 11 =>
    let half_cell := cell / 2
    let diff := wsub cell half_cell
    triangleCmd 3 t color (half_cell, half_cell) (diff, diff)
  | 12 =>
    let m := cell / 4
    let p := wsub cell m
    some (rectangleCmd t color (0, 0) (cell, cell) ++ rectangleCmd t bg (m, m) (p, p))
  | _ =>
    if i = 0 then
      let m := 40 * cell / 100
      let w := 120 * cell / 100
      some (circleCmd t color (m, m) w)
    else some []

/-! ## src/lib.rs: compositor -/

/-- The per-position loop body of `render_shape`: build the cell transform
from the running rotation counter, advance the counter, invoke the shape
callback, and concatenate the drawing commands in order. -/
def renderCells (fn : RenderFn) (color bg : Rgba) (offset cell shape : Nat) :
    Nat → Nat → List (Nat × Nat) → Option (List DrawCmd)
  | _, _, [] => some []
  | rotation, i, pos :: rest => do
    let cmds ← fn (cellTransform offset cell pos rotation) color bg cell shape i
    let more ← renderCells fn color bg offset cell shape (rotation + 1) (i + 1) rest
    pure (cmds ++ more)

/-- `render_shape`: read the shape selector nibble and the optional rotation
seed nibble from the expanded hash (`rotation_index.map(|idx| hash[idx])
.unwrap_or_default()`), then draw every position of the group. -/
def render_shape (nib : List Nat) (shape_index : Nat) (rotation_index : Option Nat)
    (color bg : Rgba) (offset cell : Nat) (fn : RenderFn)
    (positions : List (Nat × Nat)) : Option (List DrawCmd) :=
  renderCells fn color bg offset cell (nibAt nib shape_index)
    ((rotation_index.map (nibAt nib)).getD 0) 0 positions

def SIDE_POSITIONS : List (Nat × Nat) :=
  [(1, 0), (2, 0), (2, 3), (1, 3), (0, 1), (3, 1), (3, 2), (0, 2)]

def CORNER_POSITIONS : List (Nat × Nat) := [(0, 0), (3, 0), (3, 3), (0, 3)]

def CENTER_POSITIONS : List (Nat × Nat) := [(1, 1), (2, 1), (2, 2), (1, 2)]

/-- Membership test of the 3-element `selected_indices` array (initialised to
`!0 = 255`, which never matches a palette index). -/
def mem3 (s : Nat × Nat × Nat) (v : Nat) : Bool :=
  s.1 == v || s.2.1 == v || s.2.2 == v

/-- One iteration of the color-role selection loop of `render_identicon`
applied to an already-reduced index. -/
def roleStep (s : Nat × Nat × Nat) (index : Nat) : Nat :=
  if (index == 0 || index == 4) && (mem3 s 0 || mem3 s 4) then 1
  else if (index == 2 || index == 3) && (mem3 s 2 || mem3 s 3) then 1
  else index

/-- The three role-selection iterations on the mod-5-reduced selector values,
threading the partially-filled `selected_indices` array. -/
def selCore (a b c : Nat) : Nat × Nat × Nat :=
  let i0 := roleStep (255, 255, 255) a
  let i1 := roleStep (i0, 255, 255) b
  let i2 := roleStep (i0, i1, 255) c
  (i0, i1, i2)

/-- The role-selection loop of `render_identicon`: selector nibbles at indices
8, 9, 10 of the expanded hash, each reduced `% 5`. -/
def selectedIndices (nib : List Nat) : Nat × Nat × Nat :=
  selCore (nibAt nib 8 % 5) (nibAt nib 9 % 5) (nibAt nib 10 % 5)

/-- The final palette indices for the side, corner and center roles, in the
order the source destructures `selected_indices`. -/
def roleColorIndices (hash : List Nat) : Nat × Nat × Nat :=
  selectedIndices (into_nibbles hash)

/-- The three role colors of `render_identicon`; `none` models the panic of
`resolve_hue` inside `color_candidates`. -/
def roleColorsOf (c : Config) (hash : List Nat) : Option (Rgba × Rgba × Rgba) :=
  (color_candidates c (hueOf hash)).map fun cc =>
    let s := selectedIndices (into_nibbles hash)
    (cc.get_from_rotation_index s.1, cc.get_from_rotation_index s.2.1,
     cc.get_from_rotation_index s.2.2)

/-- `(config.padding * config.size as f64).round() as u32`. -/
def paddingPx (c : Config) : Nat := (round (c.padding * (c.size : ℚ))).toNat

/-- `config.size - padding * 2` (wrapping, like `u32` in release profile). -/
def innerSize (c : Config) : Nat := wsub c.size (paddingPx c * 2)

/-- `let cell = size / 4`. -/
def cellOf (c : Config) : Nat := innerSize c / 4

/-- `let offset = padding + size / 2 - cell * 2`. -/
def offsetOf (c : Config) : Nat :=
  wsub (paddingPx c + innerSize c / 2) (cellOf c * 2)

/-- The value returned by `render_identicon`: the canvas size, its background
color, and the ordered drawing commands issued to the raster backend. -/
structure IdenticonImage where
  width : Nat
  height : Nat
  background : Rgba
  cmds : List DrawCmd
deriving DecidableEq, Repr

/-- `render_identicon` from src/lib.rs; `none` models a render-time panic. -/
def render_identicon (hash : List Nat) (config : Config) : Option IdenticonImage := do
  let nib := into_nibbles hash
  let rc ← roleColorsOf config hash
  let offset := offsetOf config
  let cell := cellOf config
  let sideCmds ← render_shape nib 2 (some 3) rc.1 config.background_color
    offset cell render_outer SIDE_POSITIONS
  let cornerCmds ← render_shape nib 4 (some 5) rc.2.1 config.background_color
    offset cell render_outer CORNER_POSITIONS
  let centerCmds ← render_shape nib 1 none rc.2.2 config.background_color
    offset cell render_center CENTER_POSITIONS
  pure ⟨config.size, config.size, config.background_color,
    sideCmds ++ cornerCmds ++ centerCmds⟩

/-! ## Selector accessors

Named forms of the fixed-index reads performed by `render_identicon` /
`render_shape`: the side group passes shape index 2 and rotation index 3, the
corner group 4 and 5, the center group shape index 1 and no rotation seed, and
the role-selection loop reads indices 8, 9, 10.  All of them index the
40-nibble expansion. -/

def side_shape_selector (hash : List Nat) : Nat := nibAt (into_nibbles hash) 2

def side_rotation_seed (hash : List Nat) : Nat := nibAt (into_nibbles hash) 3

def corner_shape_selector (hash : List Nat) : Nat := nibAt (into_nibbles hash) 4

def corner_rotation_seed (hash : List Nat) : Nat := nibAt (into_nibbles hash) 5

def center_shape_selector (hash : List Nat) : Nat := nibAt (into_nibbles hash) 1

def role_selectors (hash : List Nat) : Nat × Nat × Nat :=
  (nibAt (into_nibbles hash) 8, nibAt (into_nibbles hash) 9, nibAt (into_nibbles hash) 10)

/-! ## Specification-side definitions

`roleStepSpec`/`selSpec` transcribe the specification's wording of the
color-role rule (an ordered list of previously assigned indices, group
collision against it), to be compared with the implementation. -/

/-- Spec wording: replace an index colliding with the group {0,4} or {2,3}
among the previously assigned indices by 1, else keep it. -/
def roleStepSpec (prev : List Nat) (idx : Nat) : Nat :=
  if (idx = 0 ∨ idx = 4) ∧ (0 ∈ prev ∨ 4 ∈ prev) then 1
  else if (idx = 2 ∨ idx = 3) ∧ (2 ∈ prev ∨ 3 ∈ prev) then 1
  else idx

/-- Spec wording of the whole selection: reduce each selector mod 5, apply the
rule in the order side, corner, center, appending to the assigned list. -/
def selSpecCore (a b c : Nat) : Nat × Nat × Nat :=
  let i0 := roleStepSpec [] a
  let i1 := roleStepSpec [i0] b
  let i2 := roleStepSpec [i0, i1] c
  (i0, i1, i2)

def selSpec (a b c : Nat) : Nat × Nat × Nat := selSpecCore (a % 5) (b % 5) (c % 5)

/-! ## Coordinate extraction and bounds checks -/

/-- The device coordinates a command carries: polygon vertices, the two
bounding-box corners of an ellipse, and a rectangle's position together with
its opposite corner (including the extra pixel of height). -/
def DrawCmd.coords : DrawCmd → List (Nat × Nat)
  | .polygon _ pts => pts
  | .ellipse _ x1 y1 x2 y2 => [(x1, y1), (x2, y2)]
  | .rect _ x y w h => [(x, y), (x + w, y + h)]

/-- Every coordinate of every command is `≤ n`. -/
def cmdsLeB (cs : List DrawCmd) (n : Nat) : Bool :=
  cs.all fun c => c.coords.all fun p => decide (p.1 ≤ n) && decide (p.2 ≤ n)

/-- Every coordinate of every command is `< n`. -/
def cmdsLtB (cs : List DrawCmd) (n : Nat) : Bool :=
  cs.all fun c => c.coords.all fun p => decide (p.1 < n) && decide (p.2 < n)

/-- All coordinates of a render result lie in `[0, width]` (trivially true for
a panicking render). -/
def renderLeB (o : Option IdenticonImage) : Bool :=
  o.elim true fun img => cmdsLeB img.cmds img.width

/-- All coordinates of a render result lie in `[0, width)`. -/
def renderLtB (o : Option IdenticonImage) : Bool :=
  o.elim true fun img => cmdsLtB img.cmds img.width

/-! ## Concrete inputs used by witnesses and counterexamples -/

/-- The 20-zero-byte hash of the spec's end-to-end scenario. -/
def zeroHash : List Nat := List.replicate 20 0

/-- A hash whose 7-nibble hue field is maximal (nibbles 33..39 are all `0xF`),
so the derived hue is exactly 360. -/
def maxHueHash : List Nat := List.replicate 16 0 ++ [15, 255, 255, 255]

/-- A hash all of whose bytes are `0xAB`. -/
def hashAB : List Nat := List.replicate 20 171

/-- A validated configuration with a non-empty allowed-hue set. -/
def hueListConfig : Config := { Config.default with hues := [0] }

/-- A validated configuration with size 4 and no padding. -/
def size4Config : Config := { Config.default with size := 4, padding := 0 }

/-! ## Helper lemmas -/

/-- A list of length 20 is a 20-element literal. -/
theorem eq_list20 {α : Type} (h : List α) (hl : h.length = 20) :
    ∃ b0 b1 b2 b3 b4 b5 b6 b7 b8 b9 b10 b11 b12 b13 b14 b15 b16 b17 b18 b19,
      h = [b0, b1, b2, b3, b4, b5, b6, b7, b8, b9,
           b10, b11, b12, b13, b14, b15, b16, b17, b18, b19] := by
  rcases h with _ | ⟨b0, h⟩; · simp at hl
  rcases h with _ | ⟨b1, h⟩; · simp at hl
  rcases h with _ | ⟨b2, h⟩; · simp at hl
  rcases h with _ | ⟨b3, h⟩; · simp at hl
  rcases h with _ | ⟨b4, h⟩; · simp at hl
  rcases h with _ | ⟨b5, h⟩; · simp at hl
  rcases h with _ | ⟨b6, h⟩; · simp at hl
  rcases h with _ | ⟨b7, h⟩; · simp at hl
  rcases h with _ | ⟨b8, h⟩; · simp at hl
  rcases h with _ | ⟨b9, h⟩; · simp at hl
  rcases h with _ | ⟨b10, h⟩; · simp at hl
  rcases h with _ | ⟨b11, h⟩; · simp at hl
  rcases h with _ | ⟨b12, h⟩; · simp at hl
  rcases h with _ | ⟨b13, h⟩; · simp at hl
  rcases h with _ | ⟨b14, h⟩; · simp at hl
  rcases h with _ | ⟨b15, h⟩; · simp at hl
  rcases h with _ | ⟨b16, h⟩; · simp at hl
  rcases h with _ | ⟨b17, h⟩; · simp at hl
  rcases h with _ | ⟨b18, h⟩; · simp at hl
  rcases h with _ | ⟨b19, h⟩; · simp at hl
  rcases h with _ | ⟨b20, h⟩
  · exact ⟨b0, b1, b2, b3, b4, b5, b6, b7, b8, b9,
      b10, b11, b12, b13, b14, b15, b16, b17, b18, b19, rfl⟩
  · simp at hl

/-- The implementation's role-selection steps coincide with the
specification's ordered-list formulation on mod-5-reduced inputs. -/
theorem selCore_eq_selSpecCore : ∀ x < 5, ∀ y < 5, ∀ z < 5,
    selCore x y z = selSpecCore x y z := by decide

/-- The default configuration passes every builder check. -/
theorem configValid_default : configValid Config.default := by
  refine ⟨by simp [Config.default], ?_⟩
  norm_num [Config.default]

/-- The configuration with allowed hue list `[0]` passes every builder check. -/
theorem configValid_hueListConfig : configValid hueListConfig := by
  refine ⟨by norm_num [hueListConfig, Config.default], ?_⟩
  norm_num [hueListConfig, Config.default]

/-- The size-4, zero-padding configuration passes every builder check. -/
theorem configValid_size4Config : configValid size4Config := by
  refine ⟨by simp [size4Config, Config.default], ?_⟩
  norm_num [size4Config, Config.default]

/-- The hue seed of the all-zero hash. -/
theorem seed_zeroHash : hash_substring_u32 7 (into_nibbles zeroHash) 33 = 0 := by decide

/-- The hue seed of `maxHueHash` is the largest 28-bit value. -/
theorem seed_maxHueHash :
    hash_substring_u32 7 (into_nibbles maxHueHash) 33 = 268435455 := by decide

/-- The hue formula, with the denominator written as `2^28 - 1`. -/
theorem hueOf_eq (h : List Nat) :
    hueOf h = 360 * (hash_substring_u32 7 (into_nibbles h) 33 : ℚ) / ((2 : ℚ) ^ 28 - 1) := by
  unfold hueOf
  norm_num

/-- The derived hue is nonnegative for every hash. -/
theorem hueOf_nonneg (h : List Nat) : 0 ≤ hueOf h := by
  unfold hueOf
  positivity

/-- The derived hue is at most 360 whenever the seed is at most `2^28 - 1`. -/
theorem hueOf_le_360 (h : List Nat)
    (hs : hash_substring_u32 7 (into_nibbles h) 33 ≤ 268435455) : hueOf h ≤ 360 := by
  unfold hueOf
  rw [div_le_iff (by norm_num)]
  have : (hash_substring_u32 7 (into_nibbles h) 33 : ℚ) ≤ 268435455 := by exact_mod_cast hs
  nlinarith

/-- The derived hue of the all-zero hash is 0. -/
theorem hueOf_zeroHash : hueOf zeroHash = 0 := by
  unfold hueOf
  rw [seed_zeroHash]
  norm_num

/-- The derived hue of `maxHueHash` is exactly 360. -/
theorem hueOf_maxHueHash : hueOf maxHueHash = 360 := by
  unfold hueOf
  rw [seed_maxHueHash]
  norm_num

/-- `resolve_hue` succeeds (with the unmodified hue) when no hue restriction
is configured. -/
theorem resolve_hue_empty (c : Config) (hue : ℚ) (hc : c.hues = []) :
    resolve_hue c hue = some hue := by
  simp [resolve_hue, hc]

/-- `resolve_hue` indexes out of bounds — a panic — at hue 360 on the
one-element hue list. -/
theorem resolve_hue_360_panics : resolve_hue hueListConfig 360 = none := by
  have hidx : ((⌊(360 : ℚ) / 360 * ((1 : Nat) : ℚ)⌋).toNat) = 1 := by norm_num
  simp only [resolve_hue, hueListConfig, Config.default, List.isEmpty_cons,
    Bool.false_eq_true, if_false, List.length_cons, List.length_nil]
  rw [hidx]
  rfl

/-! ## C1 -/

/-- C1: rendering is deterministic — for every valid 20-byte hash and
validated configuration, two calls of the render entry point on identical
inputs produce identical results (hence byte-identical pixel buffers once the
deterministic raster backend consumes the identical command lists). -/
theorem c1_render_deterministic (h1 h2 : List Nat) (cfg1 cfg2 : Config)
    (hlen : h1.length = 20) (hbytes : ∀ b ∈ h1, b < 256) (hval : configValid cfg1)
    (hh : h1 = h2) (hc : cfg1 = cfg2) :
    render_identicon h1 cfg1 = render_identicon h2 cfg2 := by
  subst hh; subst hc; rfl

/-- Witness for C1 at the all-zero hash and the default configuration. -/
theorem c1_render_deterministic_witness :
    zeroHash.length = 20 ∧ (∀ b ∈ zeroHash, b < 256) ∧ configValid Config.default ∧
    render_identicon zeroHash Config.default = render_identicon zeroHash Config.default :=
  ⟨by decide, by decide, configValid_default,
    c1_render_deterministic zeroHash zeroHash Config.default Config.default
      (by decide) (by decide) configValid_default rfl rfl⟩

/-! ## C2 -/

/-- C2: the color-role selector, applied in the fixed order side, corner,
center to the three selector values each reduced mod 5, behaves exactly as the
stated replacement rule over the list of previously assigned indices, and on
the concrete selector values (0,4,2) and (0,0,3) yields (0,1,2) and (0,1,3). -/
theorem c2_role_selection :
    (∀ nib : List Nat,
      selectedIndices nib = selSpec (nibAt nib 8) (nibAt nib 9) (nibAt nib 10)) ∧
    selCore 0 4 2 = (0, 1, 2) ∧ selCore 0 0 3 = (0, 1, 3) := by
  refine ⟨fun nib => ?_, by decide, by decide⟩
  exact selCore_eq_selSpecCore _ (Nat.mod_lt _ (by omega)) _ (Nat.mod_lt _ (by omega))
    _ (Nat.mod_lt _ (by omega))

/-! ## C3 -/

/-- C3 counterexample: on the hash whose hue field consists of seven `0xF`
nibbles, the derived hue is exactly 360, so it does not lie in `[0, 360)` as
claimed.  (The `f64` computation `360.0 * v / (2^28 - 1)` is exact at
`v = 2^28 - 1`.) -/
theorem c3_hue_counterexample : hueOf maxHueHash = 360 ∧ ¬ hueOf maxHueHash < 360 := by
  refine ⟨hueOf_maxHueHash, ?_⟩
  rw [hueOf_maxHueHash]
  exact lt_irrefl _

/-- C3 (amended): the hash is expanded into 40 nibbles, high before low in
byte order; the hue seed reassembles the 7 nibbles at offsets 33–39
big-endian; and the derived hue `360 * value / (2^28 - 1)` lies in the
closed range `[0, 360]` (it equals 360 exactly when the seed is maximal). -/
theorem c3_hue_derivation (h : List Nat) (hlen : h.length = 20)
    (hbytes : ∀ b ∈ h, b < 256) :
    (∀ i < 20, nibAt (into_nibbles h) (2 * i) = h.getD i 0 / 16 ∧
      nibAt (into_nibbles h) (2 * i + 1) = h.getD i 0 % 16) ∧
    (into_nibbles h).length = 40 ∧
    hash_substring_u32 7 (into_nibbles h) 33 =
      nibAt (into_nibbles h) 33 * 16 ^ 6 + nibAt (into_nibbles h) 34 * 16 ^ 5 +
      nibAt (into_nibbles h) 35 * 16 ^ 4 + nibAt (into_nibbles h) 36 * 16 ^ 3 +
      nibAt (into_nibbles h) 37 * 16 ^ 2 + nibAt (into_nibbles h) 38 * 16 +
      nibAt (into_nibbles h) 39 ∧
    hueOf h = 360 * (hash_substring_u32 7 (into_nibbles h) 33 : ℚ) / ((2 : ℚ) ^ 28 - 1) ∧
    0 ≤ hueOf h ∧ hueOf h ≤ 360 := by
  obtain ⟨b0, b1, b2, b3, b4, b5, b6, b7, b8, b9,
    b10, b11, b12, b13, b14, b15, b16, b17, b18, b19, rfl⟩ := eq_list20 h hlen
  have hb16 : b16 < 256 := hbytes _ (by simp)
  have hb17 : b17 < 256 := hbytes _ (by simp)
  have hb18 : b18 < 256 := hbytes _ (by simp)
  have hb19 : b19 < 256 := hbytes _ (by simp)
  have hr4 : List.range 4 = [0, 1, 2, 3] := rfl
  have hsub : hash_substring_u32 7 (into_nibbles
      [b0, b1, b2, b3, b4, b5, b6, b7, b8, b9,
       b10, b11, b12, b13, b14, b15, b16, b17, b18, b19]) 33 =
      b16 % 16 * 16 ^ 6 + b17 / 16 * 16 ^ 5 + b17 % 16 * 16 ^ 4 + b18 / 16 * 16 ^ 3 +
      b18 % 16 * 16 ^ 2 + b19 / 16 * 16 + b19 % 16 := by
    simp [hash_substring_u32, pad_zeroes, nibAt, into_nibbles, hr4]
    ring
  refine ⟨?_, rfl, ?_, hueOf_eq _, hueOf_nonneg _, ?_⟩
  · intro i hi
    interval_cases i <;> exact ⟨rfl, rfl⟩
  · rw [hsub]
    rfl
  · refine hueOf_le_360 _ ?_
    rw [hsub]
    omega

/-- Witness for C3 at the all-zero hash. -/
theorem c3_hue_derivation_witness :
    zeroHash.length = 20 ∧ (∀ b ∈ zeroHash, b < 256) ∧
    (0 ≤ hueOf zeroHash ∧ hueOf zeroHash ≤ 360) :=
  ⟨by decide, by decide, (c3_hue_derivation zeroHash (by decide) (by decide)).2.2.2.2⟩

/-! ## C4 -/

/-- C4: evaluation of the render entry point at the failing input.  The
configuration with allowed-hue list `[0]` passes every builder check, yet on
the hash whose hue field is maximal the derived hue is exactly 360, and
`resolve_hue` indexes `hues[(360/360 * 1) as usize] = hues[1]`, out of bounds
for the 1-element list — a render-time panic, contradicting the claim that
rendering never panics for validated configurations. -/
theorem c4_render_panics :
    configValid hueListConfig ∧ maxHueHash.length = 20 ∧
    (∀ b ∈ maxHueHash, b < 256) ∧ hueOf maxHueHash = 360 ∧
    resolve_hue hueListConfig (hueOf maxHueHash) = none ∧
    render_identicon maxHueHash hueListConfig = none := by
  have hres : resolve_hue hueListConfig (hueOf maxHueHash) = none := by
    rw [hueOf_maxHueHash]; exact resolve_hue_360_panics
  refine ⟨configValid_hueListConfig, by decide, by decide, hueOf_maxHueHash, hres, ?_⟩
  simp [render_identicon, roleColorsOf, color_candidates, hres]

/-! ## C5 -/

/-- C5: the cell transform maps a shape-local point `(px, py)` with local
bounding box `(w, h)` to exactly the stated device coordinates for each
rotation quadrant, where `right = x + size` and `bottom = y + size`. -/
theorem c5_transform_formulas (x y size r px py w h : Nat) (hr : r < 4)
    (hxw : px + w ≤ size) (hyh : py + h ≤ size)
    (hx : x + size < u32Mod) (hy : y + size < u32Mod) :
    (r = 0 → (Transform.new x y size r).transform (px, py) (w, h) = (x + px, y + py)) ∧
    (r = 1 → (Transform.new x y size r).transform (px, py) (w, h) =
      (x + size - py - h, y + px)) ∧
    (r = 2 → (Transform.new x y size r).transform (px, py) (w, h) =
      (x + size - px - w, y + size - py - h)) ∧
    (r = 3 → (Transform.new x y size r).transform (px, py) (w, h) =
      (x + py, y + size - px - w)) := by
  unfold u32Mod at hx hy
  refine ⟨?_, ?_, ?_, ?_⟩ <;> rintro rfl
  · rfl
  · have e : (Transform.new x y size 1).transform (px, py) (w, h) =
        (wsub (wsub (x + size) py) h, y + px) := rfl
    rw [e, Prod.mk.injEq]
    refine ⟨?_, rfl⟩
    unfold wsub u32Mod
    omega
  · have e : (Transform.new x y size 2).transform (px, py) (w, h) =
        (wsub (wsub (x + size) px) w, wsub (wsub (y + size) py) h) := rfl
    rw [e, Prod.mk.injEq]
    constructor <;> (unfold wsub u32Mod; omega)
  · have e : (Transform.new x y size 3).transform (px, py) (w, h) =
        (x + py, wsub (wsub (y + size) px) w) := rfl
    rw [e, Prod.mk.injEq]
    refine ⟨rfl, ?_⟩
    unfold wsub u32Mod
    omega

/-- Witness for C5 at a concrete rotation-1 cell. -/
theorem c5_transform_formulas_witness :
    (1 : Nat) < 4 ∧ 2 + 4 ≤ 10 ∧ 3 + 4 ≤ 10 ∧ 5 + 10 < u32Mod ∧ 7 + 10 < u32Mod ∧
    (Transform.new 5 7 10 1).transform (2, 3) (4, 4) = (8, 9) :=
  ⟨by decide, by decide, by decide, by decide, by decide,
    (c5_transform_formulas 5 7 10 1 2 3 4 4 (by decide) (by decide) (by decide)
      (by decide) (by decide)).2.1 rfl⟩

/-! ## C6 -/

/-- C6: `corrected_hsl_to_rgb` selects its corrector from the fixed table
{0.55, 0.50, 0.50, 0.46, 0.60, 0.55} by the hue's 60-degree sixth and computes
the corrected lightness by the two stated branch formulas; at `l = 0.5` the
else-branch yields exactly the table's corrector, which also equals the limit
`0.5 * corrector * 2` of the first branch, so the branches are continuous
there. -/
theorem c6_corrected_lightness (h : ℚ) (h0 : 0 ≤ h) (h360 : h < 360) :
    HSL_CORRECTORS = [0.55, 0.5, 0.5, 0.46, 0.6, 0.55] ∧
    (⌊h / 60⌋).toNat < 6 ∧
    correctorOf h = HSL_CORRECTORS.getD (⌊h / 60⌋).toNat 0 ∧
    (∀ l : ℚ, l < 0.5 → correctedLightness h l = l * correctorOf h * 2) ∧
    (∀ l : ℚ, 0.5 ≤ l →
      correctedLightness h l = correctorOf h + (l - 0.5) * (1 - correctorOf h) * 2) ∧
    correctedLightness h 0.5 = correctorOf h ∧
    (0.5 : ℚ) * correctorOf h * 2 = correctorOf h := by
  have hfl0 : 0 ≤ ⌊h / 60⌋ := Int.floor_nonneg.2 (by positivity)
  have hfl6 : ⌊h / 60⌋ < 6 := by
    have hq : h / 60 < 6 := by
      rw [div_lt_iff (by norm_num : (0 : ℚ) < 60)]
      linarith
    exact Int.floor_lt.2 (by push_cast; linarith)
  have htn : (⌊h / 60⌋).toNat < 6 := by omega
  refine ⟨rfl, htn, ?_, ?_, ?_, ?_, by ring⟩
  · unfold correctorOf
    rw [Nat.mod_eq_of_lt htn]
  · intro l hl
    unfold correctedLightness
    rw [if_pos hl]
  · intro l hl
    unfold correctedLightness
    rw [if_neg (not_lt.2 hl)]
    ring
  · unfold correctedLightness
    rw [if_neg (lt_irrefl _)]
    ring

/-- Witness for C6 at hue 90 (second sixth). -/
theorem c6_corrected_lightness_witness :
    (0 : ℚ) ≤ 90 ∧ (90 : ℚ) < 360 ∧ correctedLightness 90 0.5 = correctorOf 90 :=
  ⟨by norm_num, by norm_num,
    (c6_corrected_lightness 90 (by norm_num) (by norm_num)).2.2.2.2.2.1⟩

/-! ## C7 -/

/-- C7 counterexample: for the all-zero hash the role-selected palette indices
are (side, corner, center) = (0, 1, 1), not (1, 0, 1) as the claim's
assignment (side/center ↦ 1, corner ↦ 0) would require. -/
theorem c7_roles_counterexample :
    roleColorIndices zeroHash = (0, 1, 1) ∧ roleColorIndices zeroHash ≠ (1, 0, 1) := by
  constructor <;> decide

/-- C7 (amended): for the 20-zero-byte hash under the default configuration
the derived hue is 0, the three role selector values are all 0, the role
selection yields palette indices (0, 1, 1) in side, corner, center order, and
hence the side group is drawn with palette index 0 (dark-gray) while the
corner and center groups are drawn with palette index 1 (mid-color). -/
theorem c7_zero_hash_scenario :
    hueOf zeroHash = 0 ∧
    role_selectors zeroHash = (0, 0, 0) ∧
    roleColorIndices zeroHash = (0, 1, 1) ∧
    (∀ cc : ColorCandidates, cc.get_from_rotation_index 0 = cc.dark_gray ∧
      cc.get_from_rotation_index 1 = cc.mid_color) ∧
    (color_candidates Config.default (hueOf zeroHash)).isSome = true ∧
    roleColorsOf Config.default zeroHash =
      (color_candidates Config.default (hueOf zeroHash)).map fun cc =>
        (cc.dark_gray, cc.mid_color, cc.mid_color) := by
  have hsel : selectedIndices (into_nibbles zeroHash) = (0, 1, 1) := by decide
  have hcc : (color_candidates Config.default (hueOf zeroHash)).isSome = true := by
    simp [color_candidates, resolve_hue_empty Config.default _ rfl]
  refine ⟨hueOf_zeroHash, by decide, by decide, fun cc => ⟨rfl, rfl⟩, hcc, ?_⟩
  unfold roleColorsOf
  rw [hsel]
  rfl

/-! ## C8 -/

/-- C8 counterexample: on the hash all of whose bytes are `0xAB`, the side
shape selector the renderer reads is 10 — a single nibble; it equals neither
any original byte of the hash nor any value obtained by joining two adjacent
nibbles back into a byte, refuting the claim that the selectors are raw
(two-nibble) bytes. -/
theorem c8_selector_counterexample :
    side_shape_selector hashAB = 10 ∧
    (∀ i < 20, hashAB.getD i 0 ≠ 10) ∧
    (∀ i < 39,
      nibAt (into_nibbles hashAB) i * 16 + nibAt (into_nibbles hashAB) (i + 1) ≠ 10) := by
  refine ⟨by decide, by decide, by decide⟩

/-- C8 (amended): the shape selectors and rotation seeds the renderer reads
are single nibbles of the 40-nibble expansion at fixed indices (shape 2 and
seed 3 for the side group, 4 and 5 for the corner group, shape 1 for the
center group), and the three role selectors are the nibbles at indices 8, 9,
10; every one of them is a half-byte value below 16. -/
theorem c8_selectors_are_nibbles (h : List Nat) (hlen : h.length = 20)
    (hbytes : ∀ b ∈ h, b < 256) :
    side_shape_selector h = h.getD 1 0 / 16 ∧ side_rotation_seed h = h.getD 1 0 % 16 ∧
    corner_shape_selector h = h.getD 2 0 / 16 ∧
    corner_rotation_seed h = h.getD 2 0 % 16 ∧
    center_shape_selector h = h.getD 0 0 % 16 ∧
    role_selectors h = (h.getD 4 0 / 16, h.getD 4 0 % 16, h.getD 5 0 / 16) ∧
    side_shape_selector h < 16 ∧ side_rotation_seed h < 16 ∧
    corner_shape_selector h < 16 ∧ corner_rotation_seed h < 16 ∧
    center_shape_selector h < 16 ∧
    (role_selectors h).1 < 16 ∧ (role_selectors h).2.1 < 16 ∧
    (role_selectors h).2.2 < 16 := by
  obtain ⟨b0, b1, b2, b3, b4, b5, b6, b7, b8, b9,
    b10, b11, b12, b13, b14, b15, b16, b17, b18, b19, rfl⟩ := eq_list20 h hlen
  have hb0 : b0 < 256 := hbytes _ (by simp)
  have hb1 : b1 < 256 := hbytes _ (by simp)
  have hb2 : b2 < 256 := hbytes _ (by simp)
  have hb4 : b4 < 256 := hbytes _ (by simp)
  have hb5 : b5 < 256 := hbytes _ (by simp)
  refine ⟨rfl, rfl, rfl, rfl, rfl, rfl, ?_, ?_, ?_, ?_, ?_, ?_, ?_, ?_⟩ <;>
    simp [side_shape_selector, side_rotation_seed, corner_shape_selector,
      corner_rotation_seed, center_shape_selector, role_selectors, nibAt,
      into_nibbles] <;> omega

/-- Witness for C8 at the all-`0xAB` hash. -/
theorem c8_selectors_are_nibbles_witness :
    hashAB.length = 20 ∧ (∀ b ∈ hashAB, b < 256) ∧ side_shape_selector hashAB < 16 :=
  ⟨by decide, by decide,
    (c8_selectors_are_nibbles hashAB (by decide) (by decide)).2.2.2.2.2.2.1⟩

/-! ## Totality of the shape callbacks -/

/-- The `unreachable_unchecked` arm of the triangle vertex selection is never
taken: `rotation % 4` is always below 4. -/
theorem trianglePoints_isSome (r : Nat) (tl sz : Nat × Nat) :
    (trianglePoints r tl sz).isSome = true := by
  have h4 : r % 4 < 4 := Nat.mod_lt _ (by omega)
  unfold trianglePoints
  split <;> first | rfl | omega

theorem triangleCmd_isSome (r : Nat) (t : Transform) (c : Rgba) (tl sz : Nat × Nat) :
    (triangleCmd r t c tl sz).isSome = true := by
  obtain ⟨pts, hp⟩ := Option.isSome_iff_exists.1 (trianglePoints_isSome r tl sz)
  simp [triangleCmd, hp]

/-- `render_outer` draws on every input. -/
theorem render_outer_isSome (t : Transform) (c bg : Rgba) (cell shape i : Nat) :
    (render_outer t c bg cell shape i).isSome = true := by
  unfold render_outer
  split <;> first | rfl | exact triangleCmd_isSome ..

/-- `render_center` draws (possibly nothing) on every input. -/
theorem render_center_isSome (t : Transform) (c bg : Rgba) (cell shape i : Nat) :
    (render_center t c bg cell shape i).isSome = true := by
  unfold render_center
  split
  all_goals first
    | rfl
    | exact triangleCmd_isSome ..
    | · obtain ⟨tri, hp⟩ := Option.isSome_iff_exists.1
          (triangleCmd_isSome 1 t c (cell / 2, cell / 2) (wsub cell (cell / 2), wsub cell (cell / 2)))
        simp [hp]
    | · split <;> rfl

/-- `render_shape`'s position loop succeeds when the callback always does. -/
theorem renderCells_isSome (fn : RenderFn)
    (hfn : ∀ t c b ce s i, (fn t c b ce s i).isSome = true)
    (color bg : Rgba) (offset cell shape : Nat) :
    ∀ positions rot i, (renderCells fn color bg offset cell shape rot i positions).isSome = true := by
  intro positions
  induction positions with
  | nil => intro rot i; rfl
  | cons p rest ih =>
    intro rot i
    obtain ⟨cmds, hc⟩ := Option.isSome_iff_exists.1
      (hfn (cellTransform offset cell p rot) color bg cell shape i)
    obtain ⟨more, hm⟩ := Option.isSome_iff_exists.1 (ih (rot + 1) (i + 1))
    simp [renderCells, hc, hm]

/-- Rendering succeeds for every hash whenever no hue restriction is
configured: the hue-list indexing of `resolve_hue` is then the only failure
source in the whole pipeline. -/
theorem render_identicon_total (h : List Nat) (cfg : Config) (hh : cfg.hues = []) :
    (render_identicon h cfg).isSome = true := by
  have hrc : (roleColorsOf cfg h).isSome = true := by
    simp [roleColorsOf, color_candidates, resolve_hue_empty cfg _ hh]
  obtain ⟨rc, hrc⟩ := Option.isSome_iff_exists.1 hrc
  obtain ⟨s1, h1⟩ := Option.isSome_iff_exists.1
    (renderCells_isSome render_outer render_outer_isSome rc.1 cfg.background_color
      (offsetOf cfg) (cellOf cfg) (nibAt (into_nibbles h) 2) SIDE_POSITIONS
      (nibAt (into_nibbles h) 3) 0)
  obtain ⟨s2, h2⟩ := Option.isSome_iff_exists.1
    (renderCells_isSome render_outer render_outer_isSome rc.2.1 cfg.background_color
      (offsetOf cfg) (cellOf cfg) (nibAt (into_nibbles h) 4) CORNER_POSITIONS
      (nibAt (into_nibbles h) 5) 0)
  obtain ⟨s3, h3⟩ := Option.isSome_iff_exists.1
    (renderCells_isSome render_center render_center_isSome rc.2.2 cfg.background_color
      (offsetOf cfg) (cellOf cfg) (nibAt (into_nibbles h) 1) CENTER_POSITIONS 0 0)
  simp [render_identicon, render_shape, hrc, h1, h2, h3]

/-! ## C10 -/

/-- Every role-selection output component is a palette index below 5. -/
theorem selCore_lt_5 : ∀ x < 5, ∀ y < 5, ∀ z < 5,
    (selCore x y z).1 < 5 ∧ (selCore x y z).2.1 < 5 ∧ (selCore x y z).2.2 < 5 := by decide

/-- C10: for every hash and configuration the three role-selected palette
indices are below 5, every cell transform carries a rotation below 4
(so the wildcard arms of `get_from_rotation_index` and `Transform::transform`
stand only for index 4 and rotation 3, as the 5-entry table reading shows),
the `unreachable_unchecked` branch of the triangle primitive is never taken,
and the whole render pipeline succeeds whenever the hue list is empty. -/
theorem c10_partiality_invariants :
    (∀ nib : List Nat, (selectedIndices nib).1 < 5 ∧ (selectedIndices nib).2.1 < 5 ∧
      (selectedIndices nib).2.2 < 5) ∧
    (∀ offset cell pos r, (cellTransform offset cell pos r).rotation < 4) ∧
    (∀ cc : ColorCandidates, ∀ i < 5, cc.get_from_rotation_index i =
      [cc.dark_gray, cc.mid_color, cc.light_gray, cc.light_color,
        cc.dark_color].getD i cc.dark_gray) ∧
    (∀ r tl sz, (trianglePoints r tl sz).isSome = true) ∧
    (∀ h cfg, cfg.hues = [] → (render_identicon h cfg).isSome = true) := by
  refine ⟨fun nib => ?_, fun offset cell pos r => ?_, fun cc i hi => ?_,
    trianglePoints_isSome, render_identicon_total⟩
  · exact selCore_lt_5 _ (Nat.mod_lt _ (by omega)) _ (Nat.mod_lt _ (by omega))
      _ (Nat.mod_lt _ (by omega))
  · exact Nat.mod_lt _ (by omega)
  · interval_cases i <;> rfl

/-- Witness for C10 at the all-zero hash and the default configuration. -/
theorem c10_partiality_invariants_witness :
    Config.default.hues = [] ∧
    (render_identicon zeroHash Config.default).isSome = true :=
  ⟨rfl, c10_partiality_invariants.2.2.2.2 zeroHash Config.default rfl⟩

/-! ## Canvas-bounds machinery

The next lemmas bound every device coordinate produced by the renderer.
Throughout, `cx`/`cy` are a cell's top-left corner, `cell` its size, and
`ρ < 4` the rotation stored in the cell transform. -/

/-- A transformed point stays inside the cell: its first coordinate plus the
(possibly swapped) box width stays below the cell's right edge, and similarly
for the second coordinate and the bottom edge. -/
theorem transform_point_bound (cx cy cell ρ x y w h : Nat) (hρ : ρ < 4)
    (hcx : cx + cell < u32Mod) (hcy : cy + cell < u32Mod)
    (hxw : x + w ≤ cell) (hyh : y + h ≤ cell) :
    ((Transform.new cx cy cell ρ).transform (x, y) (w, h)).1 +
      (if ρ % 2 = 1 then h else w) ≤ cx + cell ∧
    ((Transform.new cx cy cell ρ).transform (x, y) (w, h)).2 +
      (if ρ % 2 = 1 then w else h) ≤ cy + cell := by
  unfold u32Mod at hcx hcy
  interval_cases ρ
  · rw [show (Transform.new cx cy cell 0).transform (x, y) (w, h) = (cx + x, cy + y) from rfl]
    norm_num
    omega
  · rw [show (Transform.new cx cy cell 1).transform (x, y) (w, h) =
      (wsub (wsub (cx + cell) y) h, cy + x) from rfl]
    norm_num
    simp only [wsub, u32Mod]
    omega
  · rw [show (Transform.new cx cy cell 2).transform (x, y) (w, h) =
      (wsub (wsub (cx + cell) x) w, wsub (wsub (cy + cell) y) h) from rfl]
    norm_num
    simp only [wsub, u32Mod]
    omega
  · rw [show (Transform.new cx cy cell 3).transform (x, y) (w, h) =
      (cx + y, wsub (wsub (cy + cell) x) w) from rfl]
    norm_num
    simp only [wsub, u32Mod]
    omega

/-- Point form of `transform_point_bound` (empty bounding box). -/
theorem transform_point_le (cx cy cell ρ x y : Nat) (hρ : ρ < 4)
    (hcx : cx + cell < u32Mod) (hcy : cy + cell < u32Mod)
    (hx : x ≤ cell) (hy : y ≤ cell) :
    ((Transform.new cx cy cell ρ).transform (x, y) (0, 0)).1 ≤ cx + cell ∧
    ((Transform.new cx cy cell ρ).transform (x, y) (0, 0)).2 ≤ cy + cell := by
  have := transform_point_bound cx cy cell ρ x y 0 0 hρ hcx hcy (by omega) (by omega)
  simpa using this

/-- Every vertex of a polygon whose local vertices fit in the cell is bounded
by the cell's bottom-right corner. -/
theorem polygonCmd_bound (cx cy cell ρ n : Nat) (color : Rgba) (pts : List (Nat × Nat))
    (hρ : ρ < 4) (hcx : cx + cell ≤ n) (hcy : cy + cell ≤ n) (hn : n < u32Mod)
    (hpts : ∀ q ∈ pts, q.1 ≤ cell ∧ q.2 ≤ cell) :
    cmdsLeB (polygonCmd (Transform.new cx cy cell ρ) color pts) n = true := by
  simp only [polygonCmd, cmdsLeB, DrawCmd.coords, List.all_cons, List.all_nil,
    Bool.and_eq_true, decide_eq_true_eq, List.all_map, List.all_eq_true, Function.comp,
    and_true]
  intro q hq
  obtain ⟨qx, qy⟩ := q
  obtain ⟨h1, h2⟩ := transform_point_le cx cy cell ρ qx qy hρ (by omega) (by omega)
    (hpts _ hq).1 (hpts _ hq).2
  rcases hT : (Transform.new cx cy cell ρ).transform (qx, qy) (0, 0) with ⟨X, Y⟩
  rw [hT] at h1 h2
  simp only [hT]
  omega

/-- The ellipse bounding box of a circle whose local box fits in the cell is
bounded by the cell's bottom-right corner. -/
theorem circleCmd_bound (cx cy cell ρ n x y d : Nat) (color : Rgba)
    (hρ : ρ < 4) (hcx : cx + cell ≤ n) (hcy : cy + cell ≤ n) (hn : n < u32Mod)
    (hxd : x + d ≤ cell) (hyd : y + d ≤ cell) :
    cmdsLeB (circleCmd (Transform.new cx cy cell ρ) color (x, y) d) n = true := by
  obtain ⟨h1, h2⟩ := transform_point_bound cx cy cell ρ x y d d hρ (by omega) (by omega)
    hxd hyd
  rw [ite_self] at h1 h2
  rcases hT : (Transform.new cx cy cell ρ).transform (x, y) (d, d) with ⟨X, Y⟩
  rw [hT] at h1 h2
  dsimp only at h1 h2
  simp only [circleCmd, hT, cmdsLeB, DrawCmd.coords, List.all_cons, List.all_nil,
    Bool.and_eq_true, decide_eq_true_eq, and_true]
  omega

/-- A rectangle whose local box fits in the cell is bounded by the cell's
bottom-right corner, with one extra pixel of height absorbed by
`cy + cell + 1 ≤ n`. -/
theorem rectangleCmd_bound (cx cy cell ρ n x y w h : Nat) (color : Rgba)
    (hρ : ρ < 4) (hcx : cx + cell ≤ n) (hcy1 : cy + cell + 1 ≤ n) (hn : n < u32Mod)
    (hxw : x + w ≤ cell) (hyh : y + h ≤ cell) :
    cmdsLeB (rectangleCmd (Transform.new cx cy cell ρ) color (x, y) (w, h)) n = true := by
  obtain ⟨h1, h2⟩ := transform_point_bound cx cy cell ρ x y w h hρ (by omega) (by omega)
    hxw hyh
  rcases hT : (Transform.new cx cy cell ρ).transform (x, y) (w, h) with ⟨X, Y⟩
  rw [hT] at h1 h2
  dsimp only at h1 h2
  have hrot : (Transform.new cx cy cell ρ).rotation = ρ := rfl
  by_cases hb : ρ % 2 = 1
  · rw [if_pos hb] at h1 h2
    simp only [rectangleCmd, hT, hrot, hb, cmdsLeB, DrawCmd.coords, List.all_cons,
      List.all_nil, Bool.and_eq_true, decide_eq_true_eq, beq_self_eq_true, if_true, and_true]
    omega
  · rw [if_neg hb] at h1 h2
    have hb2 : ((ρ % 2 == 1) = true) = False := by simp [hb]
    simp only [rectangleCmd, hT, hrot, cmdsLeB, DrawCmd.coords, List.all_cons,
      List.all_nil, Bool.and_eq_true, decide_eq_true_eq, hb2, beq_iff_eq, hb, if_false,
      and_true]
    omega

/-- The vertices produced by the triangle corner selection stay inside the
local bounding box. -/
theorem trianglePoints_mem_bound (r : Nat) (tl sz : Nat × Nat) (pts : List (Nat × Nat))
    (hp : trianglePoints r tl sz = some pts) :
    ∀ q ∈ pts, q.1 ≤ tl.1 + sz.1 ∧ q.2 ≤ tl.2 + sz.2 := by
  unfold trianglePoints at hp
  split at hp
  all_goals first
    | (dsimp only at hp; injection hp with hp; subst hp; intro q hq;
       simp only [List.mem_cons, List.not_mem_nil, or_false] at hq;
       rcases hq with rfl | rfl | rfl <;> dsimp <;> omega)
    | simp at hp

/-- A triangle whose local box fits in the cell draws a polygon bounded by the
cell's bottom-right corner. -/
theorem triangleCmd_bound (cx cy cell ρ n r x y w h : Nat) (color : Rgba)
    (cmds : List DrawCmd)
    (heq : triangleCmd r (Transform.new cx cy cell ρ) color (x, y) (w, h) = some cmds)
    (hρ : ρ < 4) (hcx : cx + cell ≤ n) (hcy : cy + cell ≤ n) (hn : n < u32Mod)
    (hxw : x + w ≤ cell) (hyh : y + h ≤ cell) :
    cmdsLeB cmds n = true := by
  unfold triangleCmd at heq
  rcases hp : trianglePoints r (x, y) (w, h) with _ | pts
  · rw [hp] at heq; simp at heq
  · rw [hp] at heq
    have heq2 : polygonCmd (Transform.new cx cy cell ρ) color pts = cmds := by
      simpa using heq
    subst heq2
    refine polygonCmd_bound cx cy cell ρ n color pts hρ hcx hcy hn fun q hq => ?_
    have := trianglePoints_mem_bound r (x, y) (w, h) pts hp q hq
    simp only at this
    omega

theorem cmdsLeB_append (a b : List DrawCmd) (n : Nat) :
    cmdsLeB (a ++ b) n = (cmdsLeB a n && cmdsLeB b n) := by
  unfold cmdsLeB
  exact List.all_append

/-- Every command drawn by an outer (side/corner) shape stays inside the
cell, hence within `[0, n]` when the cell does. -/
theorem render_outer_bound (cx cy cell ρ n shape i : Nat) (color bg : Rgba)
    (cmds : List DrawCmd)
    (heq : render_outer (Transform.new cx cy cell ρ) color bg cell shape i = some cmds)
    (hρ : ρ < 4) (hcx : cx + cell ≤ n) (hcy : cy + cell ≤ n) (hn : n < u32Mod) :
    cmdsLeB cmds n = true := by
  have hcellM : cell < u32Mod := by unfold u32Mod at *; omega
  unfold render_outer at heq
  split at heq
  · exact triangleCmd_bound cx cy cell ρ n 0 0 0 cell cell color cmds heq hρ hcx hcy hn
      (by omega) (by omega)
  · exact triangleCmd_bound cx cy cell ρ n 0 0 (cell / 2) cell (cell / 2) color cmds heq
      hρ hcx hcy hn (by omega) (by omega)
  · injection heq with heq
    subst heq
    refine polygonCmd_bound cx cy cell ρ n color _ hρ hcx hcy hn fun q hq => ?_
    simp only [rhombusCmd, List.mem_cons, List.not_mem_nil, or_false] at hq
    rcases hq with rfl | rfl | rfl | rfl <;> dsimp <;> omega
  · injection heq with heq
    subst heq
    rw [wsub_eq cell (2 * (cell / 6)) (by omega) hcellM] at *
    exact circleCmd_bound cx cy cell ρ n (cell / 6) (cell / 6) (cell - 2 * (cell / 6))
      color hρ hcx hcy hn (by omega) (by omega)

/-- Every command drawn by a center shape stays inside `[0, n]` when the cell
does, with one pixel of headroom below the cell for the rectangle seam and two
cells of headroom to the right and bottom for the centered-dot variant (which
is only drawn at position 0, hence rotation 0). -/
theorem render_center_bound (cx cy cell ρ n shape i : Nat) (color bg : Rgba)
    (cmds : List DrawCmd)
    (heq : render_center (Transform.new cx cy cell ρ) color bg cell shape i = some cmds)
    (hρ : ρ < 4) (hcell : 2 ≤ cell) (hcx2 : cx + 2 * cell ≤ n) (hcy2 : cy + 2 * cell ≤ n)
    (hcy1 : cy + cell + 1 ≤ n) (hn : n < u32Mod) (hpos : i = 0 → ρ = 0) :
    cmdsLeB cmds n = true := by
  have hcx : cx + cell ≤ n := by omega
  have hcy : cy + cell ≤ n := by omega
  have hcellM : cell < u32Mod := by unfold u32Mod at *; omega
  unfold render_center at heq
  split at heq
  all_goals try (dsimp only at heq)
  · -- shape 0: clipped-corner pentagon
    injection heq with heq
    subst heq
    rw [wsub_eq cell (42 * cell / 100 * 2) (by omega) hcellM,
      wsub_eq cell (42 * cell / 100) (by omega) hcellM] at *
    refine polygonCmd_bound cx cy cell ρ n color _ hρ hcx hcy hn fun q hq => ?_
    simp only [List.mem_cons, List.not_mem_nil, or_false] at hq
    rcases hq with rfl | rfl | rfl | rfl | rfl <;> dsimp <;> omega
  · -- shape 1: tall triangle
    rw [wsub_eq cell (cell / 2) (by omega) hcellM] at heq
    exact triangleCmd_bound cx cy cell ρ n 2 (cell - cell / 2) 0 (cell / 2)
      (80 * cell / 100) color cmds heq hρ hcx hcy hn (by omega) (by omega)
  · -- shape 2: inset rectangle
    injection heq with heq
    subst heq
    rw [wsub_eq cell (cell / 3) (by omega) hcellM] at *
    exact rectangleCmd_bound cx cy cell ρ n (cell / 3) (cell / 3) (cell - cell / 3)
      (cell - cell / 3) color hρ hcx hcy1 hn (by omega) (by omega)
  · -- shape 3: bordered square with fixed minimum border widths
    injection heq with heq
    subst heq
    have hio : (if 10 < cell then cell / 10 else 1) +
        (if cell < 6 then 1 else if cell < 8 then 2 else cell / 4) ≤ cell := by
      split_ifs <;> omega
    rw [wsub_eq cell (if 10 < cell then cell / 10 else 1) (by omega) hcellM,
      wsub_eq (cell - (if 10 < cell then cell / 10 else 1))
        (if cell < 6 then 1 else if cell < 8 then 2 else cell / 4) (by omega)
        (by unfold u32Mod at *; omega)] at *
    exact rectangleCmd_bound cx cy cell ρ n _ _ _ _ color hρ hcx hcy1 hn
      (by omega) (by omega)
  · -- shape 4: inset circle
    injection heq with heq
    subst heq
    rw [wsub_eq cell (cell / 2) (by omega) hcellM,
      wsub_eq (cell - cell / 2) (15 * cell / 100) (by omega)
        (by unfold u32Mod at *; omega)] at *
    exact circleCmd_bound cx cy cell ρ n _ _ _ color hρ hcx hcy hn (by omega) (by omega)
  · -- shape 5: filled square with triangular cutout
    injection heq with heq
    subst heq
    rw [wsub_eq cell (cell / 10) (by omega) hcellM,
      wsub_eq cell (40 * cell / 100) (by omega) hcellM,
      wsub_eq (cell - 40 * cell / 100) (cell / 10) (by omega)
        (by unfold u32Mod at *; omega)] at *
    rw [cmdsLeB_append, Bool.and_eq_true]
    constructor
    · exact rectangleCmd_bound cx cy cell ρ n 0 0 cell cell color hρ hcx hcy1 hn
        (by omega) (by omega)
    · refine polygonCmd_bound cx cy cell ρ n bg _ hρ hcx hcy hn fun q hq => ?_
      simp only [List.mem_cons, List.not_mem_nil, or_false] at hq
      rcases hq with rfl | rfl | rfl <;> dsimp <;> omega
  · -- shape 6: chevron-like hexagon
    injection heq with heq
    subst heq
    refine polygonCmd_bound cx cy cell ρ n color _ hρ hcx hcy hn fun q hq => ?_
    simp only [List.mem_cons, List.not_mem_nil, or_false] at hq
    rcases hq with rfl | rfl | rfl | rfl | rfl | rfl <;> dsimp <;> omega
  · -- shape 7: corner triangle
    rw [wsub_eq cell (cell / 2) (by omega) hcellM] at heq
    exact triangleCmd_bound cx cy cell ρ n 3 (cell / 2) (cell / 2) (cell - cell / 2)
      (cell - cell / 2) color cmds heq hρ hcx hcy hn (by omega) (by omega)
  · -- shape 8: L-shape (two rectangles and a triangle)
    rw [wsub_eq cell (cell / 2) (by omega) hcellM] at heq
    rcases htri : triangleCmd 1 (Transform.new cx cy cell ρ) color (cell / 2, cell / 2)
        (cell - cell / 2, cell - cell / 2) with _ | tri
    · rw [htri] at heq; simp at heq
    · rw [htri] at heq
      have heq2 : rectangleCmd (Transform.new cx cy cell ρ) color (0, 0)
          (cell, cell - cell / 2) ++
          rectangleCmd (Transform.new cx cy cell ρ) color (0, cell / 2)
          (cell - cell / 2, cell - cell / 2) ++ tri = cmds := by
        simpa using heq
      subst heq2
      rw [cmdsLeB_append, Bool.and_eq_true, cmdsLeB_append, Bool.and_eq_true]
      refine ⟨⟨?_, ?_⟩, ?_⟩
      · exact rectangleCmd_bound cx cy cell ρ n 0 0 cell (cell - cell / 2) color
          hρ hcx hcy1 hn (by omega) (by omega)
      · exact rectangleCmd_bound cx cy cell ρ n 0 (cell / 2) (cell - cell / 2)
          (cell - cell / 2) color hρ hcx hcy1 hn (by omega) (by omega)
      · exact triangleCmd_bound cx cy cell ρ n 1 (cell / 2) (cell / 2)
          (cell - cell / 2) (cell - cell / 2) color tri htri hρ hcx hcy hn
          (by omega) (by omega)
  · -- shape 9: bordered square, size-dependent border
    injection heq with heq
    subst heq
    have hio : (if cell < 4 then 1 else if cell < 6 then 2 else 35 * cell / 100) +
        14 * cell / 100 ≤ cell := by
      split_ifs <;> omega
    rw [wsub_eq cell (if cell < 4 then 1 else if cell < 6 then 2 else 35 * cell / 100)
        (by omega) hcellM,
      wsub_eq (cell - (if cell < 4 then 1 else if cell < 6 then 2 else 35 * cell / 100))
        (14 * cell / 100) (by omega) (by unfold u32Mod at *; omega)] at *
    rw [cmdsLeB_append, Bool.and_eq_true]
    constructor
    · exact rectangleCmd_bound cx cy cell ρ n 0 0 cell cell color hρ hcx hcy1 hn
        (by omega) (by omega)
    · exact rectangleCmd_bound cx cy cell ρ n _ _ _ _ bg hρ hcx hcy1 hn
        (by omega) (by omega)
  · -- shape 10: filled square with circular cutout
    injection heq with heq
    subst heq
    rw [wsub_eq cell (12 * cell / 100) (by omega) hcellM,
      wsub_eq (cell - 12 * cell / 100) (36 * cell / 100) (by omega)
        (by unfold u32Mod at *; omega)] at *
    rw [cmdsLeB_append, Bool.and_eq_true]
    constructor
    · exact rectangleCmd_bound cx cy cell ρ n 0 0 cell cell color hρ hcx hcy1 hn
        (by omega) (by omega)
    · exact circleCmd_bound cx cy cell ρ n _ _ _ bg hρ hcx hcy hn (by omega) (by omega)
  · -- shape 11: corner triangle (same as 7)
    rw [wsub_eq cell (cell / 2) (by omega) hcellM] at heq
    exact triangleCmd_bound cx cy cell ρ n 3 (cell / 2) (cell / 2) (cell - cell / 2)
      (cell - cell / 2) color cmds heq hρ hcx hcy hn (by omega) (by omega)
  · -- shape 12: filled square with centered square cutout
    injection heq with heq
    subst heq
    rw [wsub_eq cell (cell / 4) (by omega) hcellM] at *
    rw [cmdsLeB_append, Bool.and_eq_true]
    constructor
    · exact rectangleCmd_bound cx cy cell ρ n 0 0 cell cell color hρ hcx hcy1 hn
        (by omega) (by omega)
    · exact rectangleCmd_bound cx cy cell ρ n (cell / 4) (cell / 4) (cell - cell / 4)
        (cell - cell / 4) bg hρ hcx hcy1 hn (by omega) (by omega)
  · -- shape 13: centered dot at position 0 only
    split at heq
    · next hi =>
      have hρ0 : ρ = 0 := hpos hi
      subst hρ0
      injection heq with heq
      subst heq
      rw [show circleCmd (Transform.new cx cy cell 0) color (40 * cell / 100, 40 * cell / 100)
          (120 * cell / 100) =
          [DrawCmd.ellipse color (cx + 40 * cell / 100) (cy + 40 * cell / 100)
            (cx + 40 * cell / 100 + 120 * cell / 100)
            (cy + 40 * cell / 100 + 120 * cell / 100)] from rfl]
      simp only [cmdsLeB, DrawCmd.coords, List.all_cons, List.all_nil, Bool.and_eq_true,
        decide_eq_true_eq, and_true]
      omega
    · injection heq with heq
      subst heq
      rfl

/-- Walking an outer group: every drawn command stays within `[0, n]` when
the 4x4 grid does and every position is a grid coordinate. -/
theorem renderCells_outer_bound (color bg : Rgba) (offset cell shape n : Nat)
    (hn : n < u32Mod) (hgrid : offset + 4 * cell ≤ n) :
    ∀ positions : List (Nat × Nat), (∀ q ∈ positions, q.1 ≤ 3 ∧ q.2 ≤ 3) →
    ∀ rot i cmds,
      renderCells render_outer color bg offset cell shape rot i positions = some cmds →
      cmdsLeB cmds n = true := by
  intro positions
  induction positions with
  | nil =>
    intro _ rot i cmds hc
    injection hc with hc
    subst hc
    rfl
  | cons p rest ih =>
    intro hpos rot i cmds hc
    rcases hf : render_outer (cellTransform offset cell p rot) color bg cell shape i
      with _ | c1
    · rw [show renderCells render_outer color bg offset cell shape rot i (p :: rest) =
        Option.bind (render_outer (cellTransform offset cell p rot) color bg cell shape i)
          (fun cmds => Option.bind
            (renderCells render_outer color bg offset cell shape (rot + 1) (i + 1) rest)
            (fun more => some (cmds ++ more))) from rfl, hf] at hc
      simp at hc
    · rcases hg : renderCells render_outer color bg offset cell shape (rot + 1) (i + 1) rest
        with _ | c2
      · rw [show renderCells render_outer color bg offset cell shape rot i (p :: rest) =
          Option.bind (render_outer (cellTransform offset cell p rot) color bg cell shape i)
            (fun cmds => Option.bind
              (renderCells render_outer color bg offset cell shape (rot + 1) (i + 1) rest)
              (fun more => some (cmds ++ more))) from rfl, hf, hg] at hc
        simp at hc
      · have hc2 : c1 ++ c2 = cmds := by
          rw [show renderCells render_outer color bg offset cell shape rot i (p :: rest) =
            Option.bind (render_outer (cellTransform offset cell p rot) color bg cell shape i)
              (fun cmds => Option.bind
                (renderCells render_outer color bg offset cell shape (rot + 1) (i + 1) rest)
                (fun more => some (cmds ++ more))) from rfl, hf, hg] at hc
          simpa using hc
        subst hc2
        rw [cmdsLeB_append, Bool.and_eq_true]
        obtain ⟨px, py⟩ := p
        obtain ⟨hpx, hpy⟩ := hpos (px, py) (by simp)
        have hpxc : px * cell ≤ 3 * cell := Nat.mul_le_mul_right cell hpx
        have hpyc : py * cell ≤ 3 * cell := Nat.mul_le_mul_right cell hpy
        refine ⟨?_, ih (fun q hq => hpos q (List.mem_cons_of_mem _ hq)) (rot + 1) (i + 1)
          c2 hg⟩
        refine render_outer_bound (offset + px * cell) (offset + py * cell) cell (rot % 4)
          n shape i color bg c1 hf (Nat.mod_lt _ (by omega)) (by omega) (by omega) hn

/-- Walking the center group with synchronised rotation counter and position
index (both start at 0, so position 0 is drawn with rotation 0). -/
theorem renderCells_center_bound (color bg : Rgba) (offset cell shape n : Nat)
    (hn : n < u32Mod) (hgrid : offset + 4 * cell ≤ n) (hcell : 2 ≤ cell) :
    ∀ positions : List (Nat × Nat),
      (∀ q ∈ positions, 1 ≤ q.1 ∧ q.1 ≤ 2 ∧ 1 ≤ q.2 ∧ q.2 ≤ 2) →
    ∀ k cmds,
      renderCells render_center color bg offset cell shape k k positions = some cmds →
      cmdsLeB cmds n = true := by
  intro positions
  induction positions with
  | nil =>
    intro _ k cmds hc
    injection hc with hc
    subst hc
    rfl
  | cons p rest ih =>
    intro hpos k cmds hc
    rcases hf : render_center (cellTransform offset cell p k) color bg cell shape k
      with _ | c1
    · rw [show renderCells render_center color bg offset cell shape k k (p :: rest) =
        Option.bind (render_center (cellTransform offset cell p k) color bg cell shape k)
          (fun cmds => Option.bind
            (renderCells render_center color bg offset cell shape (k + 1) (k + 1) rest)
            (fun more => some (cmds ++ more))) from rfl, hf] at hc
      simp at hc
    · rcases hg : renderCells render_center color bg offset cell shape (k + 1) (k + 1) rest
        with _ | c2
      · rw [show renderCells render_center color bg offset cell shape k k (p :: rest) =
          Option.bind (render_center (cellTransform offset cell p k) color bg cell shape k)
            (fun cmds => Option.bind
              (renderCells render_center color bg offset cell shape (k + 1) (k + 1) rest)
              (fun more => some (cmds ++ more))) from rfl, hf, hg] at hc
        simp at hc
      · have hc2 : c1 ++ c2 = cmds := by
          rw [show renderCells render_center color bg offset cell shape k k (p :: rest) =
            Option.bind (render_center (cellTransform offset cell p k) color bg cell shape k)
              (fun cmds => Option.bind
                (renderCells render_center color bg offset cell shape (k + 1) (k + 1) rest)
                (fun more => some (cmds ++ more))) from rfl, hf, hg] at hc
          simpa using hc
        subst hc2
        rw [cmdsLeB_append, Bool.and_eq_true]
        obtain ⟨px, py⟩ := p
        obtain ⟨hpx1, hpx2, hpy1, hpy2⟩ := hpos (px, py) (by simp)
        have hpxc : px * cell ≤ 2 * cell := Nat.mul_le_mul_right cell hpx2
        have hpyc : py * cell ≤ 2 * cell := Nat.mul_le_mul_right cell hpy2
        refine ⟨?_, ih (fun q hq => hpos q (List.mem_cons_of_mem _ hq)) (k + 1) c2 hg⟩
        refine render_center_bound (offset + px * cell) (offset + py * cell) cell (k % 4)
          n shape k color bg c1 hf (Nat.mod_lt _ (by omega)) hcell (by omega) (by omega)
          (by omega) hn fun hk => by omega

/-- The 4x4 grid fits inside the canvas:
`offset + 4 * cell ≤ size` for every configuration with nonnegative inner
area. -/
theorem grid_bound (cfg : Config) (hsz : cfg.size < u32Mod)
    (hpad : paddingPx cfg * 2 ≤ cfg.size) :
    offsetOf cfg + 4 * cellOf cfg ≤ cfg.size := by
  have hsi : innerSize cfg = cfg.size - paddingPx cfg * 2 :=
    wsub_eq _ _ hpad hsz
  have hcellv : cellOf cfg = innerSize cfg / 4 := rfl
  have h2 : cellOf cfg * 2 ≤ paddingPx cfg + innerSize cfg / 2 := by omega
  have hlt : paddingPx cfg + innerSize cfg / 2 < u32Mod := by
    unfold u32Mod at *; omega
  have hoffv : offsetOf cfg = paddingPx cfg + innerSize cfg / 2 - cellOf cfg * 2 :=
    wsub_eq _ _ h2 hlt
  omega

/-- `render_identicon` written as an explicit chain of `Option.bind`s. -/
theorem render_identicon_eq (hash : List Nat) (cfg : Config) :
    render_identicon hash cfg = Option.bind (roleColorsOf cfg hash) (fun rc =>
      Option.bind (render_shape (into_nibbles hash) 2 (some 3) rc.1 cfg.background_color
        (offsetOf cfg) (cellOf cfg) render_outer SIDE_POSITIONS) (fun sideCmds =>
      Option.bind (render_shape (into_nibbles hash) 4 (some 5) rc.2.1 cfg.background_color
        (offsetOf cfg) (cellOf cfg) render_outer CORNER_POSITIONS) (fun cornerCmds =>
      Option.bind (render_shape (into_nibbles hash) 1 none rc.2.2 cfg.background_color
        (offsetOf cfg) (cellOf cfg) render_center CENTER_POSITIONS) (fun centerCmds =>
      some ⟨cfg.size, cfg.size, cfg.background_color,
        sideCmds ++ cornerCmds ++ centerCmds⟩)))) := rfl

/-- C9 (amended): for every hash and every configuration whose padded inner
region is nonnegative (`2 * padding_px ≤ size`, `size` in `u32` range) and
whose derived cell size is at least 2 (so no `u32` subtraction in the shape
library wraps), every transformed device coordinate of every drawn primitive
— including the rectangle primitive's extra pixel of height — lies within
`[0, size] × [0, size]`. -/
theorem c9_coordinate_bounds (h : List Nat) (cfg : Config)
    (hsz : cfg.size < u32Mod) (hpad : paddingPx cfg * 2 ≤ cfg.size)
    (hcell : 2 ≤ cellOf cfg) :
    renderLeB (render_identicon h cfg) = true := by
  have hgrid := grid_bound cfg hsz hpad
  rcases hrc : roleColorsOf cfg h with _ | rc
  · simp [renderLeB, render_identicon_eq, hrc]
  · rcases h1 : render_shape (into_nibbles h) 2 (some 3) rc.1 cfg.background_color
      (offsetOf cfg) (cellOf cfg) render_outer SIDE_POSITIONS with _ | s1
    · simp [renderLeB, render_identicon_eq, hrc, h1]
    rcases h2 : render_shape (into_nibbles h) 4 (some 5) rc.2.1 cfg.background_color
        (offsetOf cfg) (cellOf cfg) render_outer CORNER_POSITIONS with _ | s2
    · simp [renderLeB, render_identicon_eq, hrc, h1, h2]
    rcases h3 : render_shape (into_nibbles h) 1 none rc.2.2 cfg.background_color
        (offsetOf cfg) (cellOf cfg) render_center CENTER_POSITIONS with _ | s3
    · simp [renderLeB, render_identicon_eq, hrc, h1, h2, h3]
    have himg : render_identicon h cfg = some ⟨cfg.size, cfg.size,
        cfg.background_color, s1 ++ s2 ++ s3⟩ := by
      rw [render_identicon_eq, hrc]
      simp only [Option.some_bind]
      rw [h1]
      simp only [Option.some_bind]
      rw [h2]
      simp only [Option.some_bind]
      rw [h3]
      simp only [Option.some_bind]
    rw [himg]
    show cmdsLeB (s1 ++ s2 ++ s3) cfg.size = true
    rw [cmdsLeB_append, Bool.and_eq_true, cmdsLeB_append, Bool.and_eq_true]
    have hside : ∀ q ∈ SIDE_POSITIONS, q.1 ≤ 3 ∧ q.2 ≤ 3 := by decide
    have hcorner : ∀ q ∈ CORNER_POSITIONS, q.1 ≤ 3 ∧ q.2 ≤ 3 := by decide
    have hcenter : ∀ q ∈ CENTER_POSITIONS,
        1 ≤ q.1 ∧ q.1 ≤ 2 ∧ 1 ≤ q.2 ∧ q.2 ≤ 2 := by decide
    exact ⟨⟨renderCells_outer_bound rc.1 cfg.background_color (offsetOf cfg)
        (cellOf cfg) (nibAt (into_nibbles h) 2) cfg.size hsz hgrid SIDE_POSITIONS
        hside (nibAt (into_nibbles h) 3) 0 s1 h1,
      renderCells_outer_bound rc.2.1 cfg.background_color (offsetOf cfg)
        (cellOf cfg) (nibAt (into_nibbles h) 4) cfg.size hsz hgrid CORNER_POSITIONS
        hcorner (nibAt (into_nibbles h) 5) 0 s2 h2⟩,
      renderCells_center_bound rc.2.2 cfg.background_color (offsetOf cfg)
        (cellOf cfg) (nibAt (into_nibbles h) 1) cfg.size hsz hgrid hcell
        CENTER_POSITIONS hcenter 0 s3 h3⟩

/-- The default configuration's padding in pixels: `round(0.08 * 256) = 20`. -/
theorem paddingPx_default : paddingPx Config.default = 20 := by
  unfold paddingPx Config.default
  norm_num [round_eq]
  rfl

/-- The default configuration's cell size is 54. -/
theorem cellOf_default : cellOf Config.default = 54 := by
  unfold cellOf innerSize
  rw [paddingPx_default]
  rfl

/-- The size-4, zero-padding configuration has no padding pixels. -/
theorem paddingPx_size4Config : paddingPx size4Config = 0 := by
  unfold paddingPx size4Config Config.default
  norm_num

/-- The size-4, zero-padding configuration has cell size 1. -/
theorem cellOf_size4Config : cellOf size4Config = 1 := by
  unfold cellOf innerSize
  rw [paddingPx_size4Config]
  rfl

/-- The size-4, zero-padding configuration has grid offset 0. -/
theorem offsetOf_size4Config : offsetOf size4Config = 0 := by
  unfold offsetOf cellOf innerSize
  rw [paddingPx_size4Config]
  rfl

/-- C9 counterexample: under the validated size-4, zero-padding configuration
the all-zero hash produces a drawn vertex with a coordinate equal to the
canvas size 4, so not every transformed coordinate lies in `[0, size) ×
[0, size)` as claimed. -/
theorem c9_bounds_counterexample :
    configValid size4Config ∧ 0 < size4Config.size ∧
    renderLtB (render_identicon zeroHash size4Config) = false := by
  refine ⟨configValid_size4Config, by decide, ?_⟩
  rw [render_identicon_eq, offsetOf_size4Config, cellOf_size4Config]
  decide

/-- Witness for C9 at the all-zero hash and the default configuration. -/
theorem c9_coordinate_bounds_witness :
    Config.default.size < u32Mod ∧ paddingPx Config.default * 2 ≤ Config.default.size ∧
    2 ≤ cellOf Config.default ∧
    renderLeB (render_identicon zeroHash Config.default) = true :=
  ⟨by decide, by rw [paddingPx_default]; decide, by rw [cellOf_default]; decide,
    c9_coordinate_bounds zeroHash Config.default (by decide)
      (by rw [paddingPx_default]; decide) (by rw [cellOf_default]; decide)⟩

end Rdenticon
